import Mathlib

/-!
Shallow embedding of the token-analysis core of the repository: the batched,
fault-tolerant transfer-log scanner and the holder-concentration analyzer
(`src/python/src/scoring/holder_analysis.py`), the unique-EOA activity
analyzer (`src/python/src/scoring/unique_eoa.py`), and the ERC20 reader
default-on-failure accessors (`src/python/src/blockchain/contract_reader.py`).

Modelling conventions: every external effect (RPC log query, balance read,
checksum conversion, EOA classification) is passed in as an explicit oracle
function, with `Except String` standing for a Python call that can raise an
exception carrying a message.  Python floats are modelled as rationals;
`round(x, 2)` is modelled as exact round-half-even at two decimal places
(the documented semantics of Python's `round` on exactly representable
values).  The unbounded `while` loop of `get_all_holders` is modelled with
an explicit fuel parameter that provably suffices (see the termination
theorems), so that the whole development stays executable.
-/

/-- A decoded Transfer event record: the `from`/`to`/`value` fields of the
dictionaries produced by `ContractReader.get_transfer_events`. -/
structure TransferEvent where
  from_ : String
  to_ : String
  value : ℕ
  deriving DecidableEq

/-- The zero (mint/burn) address, excluded from the holder universe. -/
def zeroAddr : String := "0x0000000000000000000000000000000000000000"

/-- Mirrors the Python capacity-error test
`"block range too large" in str(e).lower()`. -/
def isCapacityError (msg : String) : Bool :=
  decide ("block range too large".data <:+: (msg.data.map Char.toLower))

/-- The initial per-batch block count of `get_all_holders` (`BATCH_SIZE = 1000`). -/
def BATCH_SIZE : ℕ := 1000

/-- Adds the `from` and `to` addresses of one event to the address set,
skipping the zero (mint/burn) address, exactly as the event loop of
`get_all_holders` does.  Python sets are modelled as duplicate-free lists
built with `List.insert`. -/
def addEvent (acc : List String) (ev : TransferEvent) : List String :=
  let acc1 := if ev.from_ ≠ zeroAddr then acc.insert ev.from_ else acc
  if ev.to_ ≠ zeroAddr then acc1.insert ev.to_ else acc1

/-- One iteration of the scanning `while` loop of `get_all_holders`
(lines 63-102): try the full batch `[current, min (current+BATCH_SIZE) toBlock]`;
on a capacity error halve the width for this attempt only and retry once,
abandoning the sub-range when the halved width falls below 100; on any other
error skip the batch.  Returns the new cursor and the new address set; a
failure never escapes (the function is total). -/
def scanStep (query : ℕ → ℕ → Except String (List TransferEvent))
    (toBlock current : ℕ) (acc : List String) : ℕ × List String :=
  match query current (min (current + BATCH_SIZE) toBlock) with
  | Except.ok events => (min (current + BATCH_SIZE) toBlock + 1, events.foldl addEvent acc)
  | Except.error e =>
    if isCapacityError e then
      if (min (current + BATCH_SIZE) toBlock - current) / 2 < 100 then
        (min (current + BATCH_SIZE) toBlock + 1, acc)
      else
        match query current (current + (min (current + BATCH_SIZE) toBlock - current) / 2) with
        | Except.ok events =>
            (current + (min (current + BATCH_SIZE) toBlock - current) / 2 + 1,
              events.foldl addEvent acc)
        | Except.error _ =>
            (current + (min (current + BATCH_SIZE) toBlock - current) / 2 + 1, acc)
    else
      (min (current + BATCH_SIZE) toBlock + 1, acc)

/-- The scanning `while` loop of `get_all_holders`, with an explicit fuel
parameter; `toBlock + 1 - current` steps always suffice because the cursor
strictly increases (see the termination theorems below). -/
def collectAddressesAux (query : ℕ → ℕ → Except String (List TransferEvent))
    (toBlock : ℕ) : ℕ → ℕ → List String → List String
  | 0, _, acc => acc
  | fuel + 1, current, acc =>
    if current ≤ toBlock then
      collectAddressesAux query toBlock fuel (scanStep query toBlock current acc).1
        (scanStep query toBlock current acc).2
    else acc

/-- Phase 1 of `get_all_holders`: the set of all non-zero addresses observed
in decoded transfer events over `[fromBlock, toBlock]`. -/
def collectAddresses (query : ℕ → ℕ → Except String (List TransferEvent))
    (toBlock current : ℕ) (acc : List String) : List String :=
  collectAddressesAux query toBlock (toBlock + 1 - current) current acc

/-- One iteration of the balance loop of `get_all_holders` (lines 112-118):
read the balance, keep it if positive, skip the address on failure. -/
def balanceStep (getBalance : String → Except String ℕ)
    (holders : List (String × ℕ)) (addr : String) : List (String × ℕ) :=
  match getBalance addr with
  | Except.ok balance => if 0 < balance then holders ++ [(addr, balance)] else holders
  | Except.error _ => holders

/-- Phase 2 of `get_all_holders` (lines 107-120): one balance read per
deduplicated address; failures are skipped, zero balances are discarded. -/
def buildHolders (getBalance : String → Except String ℕ) (addrs : List String) :
    List (String × ℕ) :=
  addrs.foldl (balanceStep getBalance) []

/-- `HolderAnalyzer.get_all_holders` (cache disabled): scan the block range
for participant addresses, then resolve balances, keeping only positive ones. -/
def get_all_holders (query : ℕ → ℕ → Except String (List TransferEvent))
    (getBalance : String → Except String ℕ) (from_block to_block : ℕ) :
    List (String × ℕ) :=
  buildHolders getBalance (collectAddresses query to_block from_block [])

/-- `HolderAnalyzer._calculate_score` (lines 196-215), generic over the ordered
field used for the arithmetic (`ℚ` for evaluation, `ℝ` for continuity). -/
def calculate_score {K : Type} [LinearOrderedField K] (top10_percentage : K) : K :=
  if top10_percentage ≤ 20 then 30
  else if top10_percentage ≤ 40 then 30 - (top10_percentage - 20) * 0.75
  else if 80 ≤ top10_percentage then 0
  else 15 - (top10_percentage - 40) * 0.375

/-- `HolderAnalyzer._determine_risk_level` (lines 217-231). -/
def determine_risk_level (top10_percentage : ℚ) : String :=
  if top10_percentage ≤ 20 then "low_risk"
  else if top10_percentage ≤ 40 then "medium_risk"
  else if top10_percentage ≤ 60 then "high_risk"
  else "extreme_risk"

/-- Python's `sorted(holders.items(), key=lambda x: x[1], reverse=True)`:
a stable sort, descending by balance. -/
def sortedByBalanceDesc (holders : List (String × ℕ)) : List (String × ℕ) :=
  holders.mergeSort (fun a b => decide (b.2 ≤ a.2))

/-- The result dictionary of `HolderAnalyzer.analyze_holder_concentration`. -/
structure HolderResult where
  total_holders : ℕ
  total_supply : ℕ
  top10_holders : List (String × ℕ × ℚ)
  top10_percentage : ℚ
  score : ℚ
  risk_level : String
  error : Option String
  deriving DecidableEq

/-- `HolderAnalyzer.analyze_holder_concentration` (lines 128-194), taking the
holder mapping produced by `get_all_holders` as input.  `total_supply` is the
sum of the observed balances (line 166); the declared `totalSupply()` of the
contract is never consulted. -/
def analyze_holder_concentration (holders : List (String × ℕ)) : HolderResult :=
  if holders.length = 0 then
    { total_holders := 0, total_supply := 0, top10_holders := [],
      top10_percentage := 0, score := 0, risk_level := "unknown",
      error := some "No holders found" }
  else
    let total_supply := (holders.map Prod.snd).sum
    let top10 := (sortedByBalanceDesc holders).take 10
    let top10_sum := (top10.map Prod.snd).sum
    let top10_percentage : ℚ :=
      if 0 < total_supply then (top10_sum : ℚ) / (total_supply : ℚ) * 100 else 0
    { total_holders := holders.length,
      total_supply := total_supply,
      top10_holders := top10.map fun p => (p.1, p.2, (p.2 : ℚ) / (total_supply : ℚ) * 100),
      top10_percentage := top10_percentage,
      score := calculate_score top10_percentage,
      risk_level := determine_risk_level top10_percentage,
      error := none }

/-- The top-10 concentration percentage exactly as the spec words it: compute
`observedSupply` as the sum of the holder balances, sort holders descending by
balance, take the first ten (fewer if the set is smaller), and divide the sum
of their balances by `observedSupply`, times 100. -/
def specTop10Percentage (holders : List (String × ℕ)) : ℚ :=
  (((sortedByBalanceDesc holders).take 10).map Prod.snd).sum /
    ((holders.map Prod.snd).sum : ℚ) * 100

/-- Round half to even (banker's rounding) on rationals: the semantics of
Python's `round` at exactly representable inputs. -/
def rhe (x : ℚ) : ℤ :=
  if x - ⌊x⌋ < 1/2 then ⌊x⌋
  else if 1/2 < x - ⌊x⌋ then ⌊x⌋ + 1
  else if ⌊x⌋ % 2 = 0 then ⌊x⌋ else ⌊x⌋ + 1

/-- Python's `round(x, 2)`: round half to even at two decimal places. -/
def round2 (x : ℚ) : ℚ := (rhe (x * 100) : ℚ) / 100

/-- `UniqueEOAAnalyzer._calculate_score` (lines 160-193): normalize the unique
EOA count to one hour and score it piecewise linearly; the returned score is
`round(score, 2)`. -/
def uniq_calculate_score (unique_eoa_count : ℕ) (time_window_hours : ℕ) :
    ℚ × String :=
  if 300 ≤ (unique_eoa_count : ℚ) / (time_window_hours : ℚ) then
    (round2 40, "low_risk")
  else if 50 ≤ (unique_eoa_count : ℚ) / (time_window_hours : ℚ) then
    (round2 (20 + ((unique_eoa_count : ℚ) / (time_window_hours : ℚ) - 50) / 250 * 20),
      "medium_risk")
  else
    (round2 ((unique_eoa_count : ℚ) / (time_window_hours : ℚ) / 50 * 20), "high_risk")

/-- One event of the classification loop of
`UniqueEOAAnalyzer.analyze_transfer_events` (lines 119-141): record both
participants and sort each into the EOA or the contract set according to the
classifier.  State is `(all_addresses, eoa_addresses, contract_addresses)`. -/
def classifyStep (isEOA : String → Bool)
    (acc : List String × List String × List String) (ev : TransferEvent) :
    List String × List String × List String :=
  let all := (acc.1.insert ev.from_).insert ev.to_
  let afterFrom : List String × List String :=
    if isEOA ev.from_ then (acc.2.1.insert ev.from_, acc.2.2)
    else (acc.2.1, acc.2.2.insert ev.from_)
  let afterTo : List String × List String :=
    if isEOA ev.to_ then (afterFrom.1.insert ev.to_, afterFrom.2)
    else (afterFrom.1, afterFrom.2.insert ev.to_)
  (all, afterTo.1, afterTo.2)

/-- The classification loop over all events, starting from three empty sets. -/
def classifyFold (isEOA : String → Bool) (events : List TransferEvent) :
    List String × List String × List String :=
  events.foldl (classifyStep isEOA) ([], [], [])

/-- The result dictionary of `UniqueEOAAnalyzer.analyze_transfer_events`.
`eoa_percentage` is `none` in the empty-events terminal result, whose Python
dictionary has no such key. -/
structure EOAResult where
  unique_eoa_count : ℕ
  unique_eoa_list : List String
  total_addresses : ℕ
  contract_addresses : ℕ
  eoa_percentage : Option ℚ
  score : ℚ
  risk_level : String
  message : Option String
  deriving DecidableEq

/-- `UniqueEOAAnalyzer.analyze_transfer_events` (lines 69-158), taking the
fetched event list and the EOA classifier as inputs. -/
def analyze_transfer_events (isEOA : String → Bool) (events : List TransferEvent)
    (time_window_hours : ℕ) : EOAResult :=
  if events.isEmpty then
    { unique_eoa_count := 0, unique_eoa_list := [], total_addresses := 0,
      contract_addresses := 0, eoa_percentage := none, score := 0,
      risk_level := "high_risk", message := some "No transfer events found" }
  else
    let sets := classifyFold isEOA events
    { unique_eoa_count := sets.2.1.length,
      unique_eoa_list := sets.2.1,
      total_addresses := sets.1.length,
      contract_addresses := sets.2.2.length,
      eoa_percentage :=
        some (if sets.1.isEmpty then 0 else (sets.2.1.length : ℚ) / (sets.1.length : ℚ) * 100),
      score := (uniq_calculate_score sets.2.1.length time_window_hours).1,
      risk_level := (uniq_calculate_score sets.2.1.length time_window_hours).2,
      message := none }

/-- `ContractReader.get_name`: the `name()` call with default `"Unknown"` on
failure.  The external call outcome is passed in as an `Except`. -/
def get_name (call : Except String String) : String :=
  match call with
  | Except.ok v => v
  | Except.error _ => "Unknown"

/-- `ContractReader.get_symbol`: default `"UNKNOWN"` on failure. -/
def get_symbol (call : Except String String) : String :=
  match call with
  | Except.ok v => v
  | Except.error _ => "UNKNOWN"

/-- `ContractReader.get_decimals`: default `18` on failure. -/
def get_decimals (call : Except String ℕ) : ℕ :=
  match call with
  | Except.ok v => v
  | Except.error _ => 18

/-- `ContractReader.get_total_supply`: default `0` on failure. -/
def get_total_supply (call : Except String ℕ) : ℕ :=
  match call with
  | Except.ok v => v
  | Except.error _ => 0

/-- `ContractReader.get_balance`: the checksum conversion happens before the
`try` block, so only the `balanceOf` call itself is guarded, with default `0`
on its failure. -/
def get_balance (toChecksum : String → Except String String)
    (callBalanceOf : String → Except String ℕ) (address : String) :
    Except String ℕ :=
  match toChecksum address with
  | Except.error e => Except.error e
  | Except.ok checksum_address =>
    Except.ok
      (match callBalanceOf checksum_address with
       | Except.ok v => v
       | Except.error _ => 0)

/-! ### Scanner lemmas -/

theorem not_mem_insert_of_ne {a b : String} {l : List String} (hne : b ≠ a)
    (h : a ∉ l) : a ∉ l.insert b := by
  intro hmem
  rcases List.mem_insert_iff.1 hmem with h1 | h1
  · exact hne h1.symm
  · exact h h1

theorem zeroAddr_not_mem_addEvent (acc : List String) (ev : TransferEvent)
    (h : zeroAddr ∉ acc) : zeroAddr ∉ addEvent acc ev := by
  unfold addEvent
  dsimp only
  split_ifs with h1 h2 h3
  · exact not_mem_insert_of_ne h1 (not_mem_insert_of_ne h2 h)
  · exact not_mem_insert_of_ne h1 h
  · exact not_mem_insert_of_ne h3 h
  · exact h

theorem zeroAddr_not_mem_foldl (events : List TransferEvent) :
    ∀ acc : List String, zeroAddr ∉ acc → zeroAddr ∉ events.foldl addEvent acc := by
  induction events with
  | nil => intro acc h; exact h
  | cons ev evs ih => intro acc h; exact ih _ (zeroAddr_not_mem_addEvent acc ev h)

theorem zeroAddr_not_mem_scanStep (query : ℕ → ℕ → Except String (List TransferEvent))
    (toBlock current : ℕ) (acc : List String) (h : zeroAddr ∉ acc) :
    zeroAddr ∉ (scanStep query toBlock current acc).2 := by
  unfold scanStep
  cases hq : query current (min (current + BATCH_SIZE) toBlock) with
  | ok events => exact zeroAddr_not_mem_foldl events acc h
  | error e =>
    dsimp only
    split_ifs with h1 h2
    · exact h
    · cases hq2 : query current (current + (min (current + BATCH_SIZE) toBlock - current) / 2) with
      | ok events => exact zeroAddr_not_mem_foldl events acc h
      | error e2 => exact h
    · exact h

theorem scanStep_cursor_lt (query : ℕ → ℕ → Except String (List TransferEvent))
    (toBlock current : ℕ) (acc : List String) (h : current ≤ toBlock) :
    current < (scanStep query toBlock current acc).1 := by
  unfold scanStep
  cases hq : query current (min (current + BATCH_SIZE) toBlock) with
  | ok events => dsimp only; omega
  | error e =>
    dsimp only
    split_ifs with h1 h2
    · omega
    · cases hq2 : query current (current + (min (current + BATCH_SIZE) toBlock - current) / 2) with
      | ok events => dsimp only; omega
      | error e2 => dsimp only; omega
    · omega

theorem collectAddressesAux_congr (query : ℕ → ℕ → Except String (List TransferEvent))
    (toBlock : ℕ) :
    ∀ f₁ f₂ current acc, toBlock + 1 - current ≤ f₁ → toBlock + 1 - current ≤ f₂ →
      collectAddressesAux query toBlock f₁ current acc =
        collectAddressesAux query toBlock f₂ current acc := by
  intro f₁
  induction f₁ with
  | zero =>
    intro f₂ current acc h1 h2
    have hcur : toBlock < current := by omega
    cases f₂ with
    | zero => rfl
    | succ f₂ => simp [collectAddressesAux, Nat.not_le.mpr hcur]
  | succ f₁ ih =>
    intro f₂ current acc h1 h2
    cases f₂ with
    | zero =>
      have hcur : toBlock < current := by omega
      simp [collectAddressesAux, Nat.not_le.mpr hcur]
    | succ f₂ =>
      by_cases hcur : current ≤ toBlock
      · have hlt := scanStep_cursor_lt query toBlock current acc hcur
        simp only [collectAddressesAux, if_pos hcur]
        exact ih f₂ _ _ (by omega) (by omega)
      · simp [collectAddressesAux, hcur]

theorem zeroAddr_not_mem_collectAux (query : ℕ → ℕ → Except String (List TransferEvent))
    (toBlock : ℕ) :
    ∀ fuel current acc, zeroAddr ∉ acc →
      zeroAddr ∉ collectAddressesAux query toBlock fuel current acc := by
  intro fuel
  induction fuel with
  | zero => intro current acc h; exact h
  | succ fuel ih =>
    intro current acc h
    by_cases hcur : current ≤ toBlock
    · simp only [collectAddressesAux, if_pos hcur]
      exact ih _ _ (zeroAddr_not_mem_scanStep query toBlock current acc h)
    · simp only [collectAddressesAux, if_neg hcur]
      exact h

theorem mem_balanceStep_foldl (getBalance : String → Except String ℕ) :
    ∀ (addrs : List String) (init : List (String × ℕ)) (p : String × ℕ),
      p ∈ addrs.foldl (balanceStep getBalance) init →
      p ∈ init ∨ (p.1 ∈ addrs ∧ 0 < p.2) := by
  intro addrs
  induction addrs with
  | nil => intro init p hp; exact Or.inl hp
  | cons a t ih =>
    intro init p hp
    rw [List.foldl_cons] at hp
    rcases ih _ p hp with hin | hrest
    · unfold balanceStep at hin
      cases hga : getBalance a with
      | ok b =>
        rw [hga] at hin
        dsimp only at hin
        by_cases hb : 0 < b
        · rw [if_pos hb] at hin
          rcases List.mem_append.1 hin with h1 | h1
          · exact Or.inl h1
          · rw [List.mem_singleton] at h1
            subst h1
            exact Or.inr ⟨List.mem_cons_self a t, hb⟩
        · rw [if_neg hb] at hin
          exact Or.inl hin
      | error e =>
        rw [hga] at hin
        dsimp only at hin
        exact Or.inl hin
    · exact Or.inr ⟨List.mem_cons_of_mem a hrest.1, hrest.2⟩

theorem collectAddressesAux_capacity_const (toBlock : ℕ) :
    ∀ fuel current acc,
      collectAddressesAux (fun _ _ => Except.error "block range too large")
        toBlock fuel current acc = acc := by
  have hcap : isCapacityError "block range too large" = true := by decide
  intro fuel
  induction fuel with
  | zero => intro current acc; rfl
  | succ fuel ih =>
    intro current acc
    by_cases hcur : current ≤ toBlock
    · have hstep :
          (scanStep (fun _ _ => Except.error "block range too large")
            toBlock current acc).2 = acc := by
        unfold scanStep
        dsimp only
        rw [if_pos hcap]
        split_ifs <;> rfl
      simp only [collectAddressesAux, if_pos hcur]
      rw [hstep]
      exact ih _ _
    · simp only [collectAddressesAux, if_neg hcur]

/-- C3. When a batch log query inside `get_all_holders` fails with a message
indicating the provider capacity limit was exceeded, the scanner halves the
effective batch size for that attempt only (the loop's `BATCH_SIZE` constant
is untouched) and retries the smaller sub-range exactly once; if the halved
size `(batch_end - current) / 2` falls below the 100-block floor the whole
sub-range is abandoned and the cursor advances past it without data; on any
other failure the cursor advances past the failed batch; `scanStep` is total,
so no per-batch failure ever propagates to the caller. -/
theorem scanStep_capacity_policy
    (query : ℕ → ℕ → Except String (List TransferEvent))
    (toBlock current : ℕ) (acc : List String) (e : String)
    (hq : query current (min (current + BATCH_SIZE) toBlock) = Except.error e) :
    (isCapacityError e = true →
      (min (current + BATCH_SIZE) toBlock - current) / 2 < 100 →
      scanStep query toBlock current acc =
        (min (current + BATCH_SIZE) toBlock + 1, acc)) ∧
    (isCapacityError e = true →
      100 ≤ (min (current + BATCH_SIZE) toBlock - current) / 2 →
      (∀ events,
        query current (current + (min (current + BATCH_SIZE) toBlock - current) / 2) =
          Except.ok events →
        scanStep query toBlock current acc =
          (current + (min (current + BATCH_SIZE) toBlock - current) / 2 + 1,
            events.foldl addEvent acc)) ∧
      (∀ e2,
        query current (current + (min (current + BATCH_SIZE) toBlock - current) / 2) =
          Except.error e2 →
        scanStep query toBlock current acc =
          (current + (min (current + BATCH_SIZE) toBlock - current) / 2 + 1, acc))) ∧
    (isCapacityError e = false →
      scanStep query toBlock current acc =
        (min (current + BATCH_SIZE) toBlock + 1, acc)) := by
  refine ⟨fun hc hs => ?_, fun hc hs => ⟨fun events hq2 => ?_, fun e2 hq2 => ?_⟩,
    fun hc => ?_⟩
  · unfold scanStep
    rw [hq]
    dsimp only
    rw [if_pos hc, if_pos hs]
  · unfold scanStep
    rw [hq]
    dsimp only
    rw [if_pos hc, if_neg (Nat.not_lt.mpr hs), hq2]
  · unfold scanStep
    rw [hq]
    dsimp only
    rw [if_pos hc, if_neg (Nat.not_lt.mpr hs), hq2]
  · unfold scanStep
    rw [hq]
    dsimp only
    rw [if_neg (by simp [hc])]

theorem scanStep_capacity_policy_witness :
    isCapacityError "block range too large" = true ∧
    100 ≤ (min (0 + BATCH_SIZE) 2000 - 0) / 2 ∧
    scanStep (fun _ _ => Except.error "block range too large") 2000 0 [] = (501, []) := by
  have h := scanStep_capacity_policy (fun _ _ => Except.error "block range too large")
    2000 0 [] "block range too large" rfl
  have hc : isCapacityError "block range too large" = true := by decide
  have hs : 100 ≤ (min (0 + BATCH_SIZE) 2000 - 0) / 2 := by decide
  refine ⟨hc, hs, ?_⟩
  have h2 := (h.2.1 hc hs).2 "block range too large" rfl
  rw [h2]
  decide

/-- C4. The scanning loop of `get_all_holders` terminates: the cursor strictly
increases on every iteration (past the end of the batch just attempted), the
loop ends as soon as the cursor exceeds `toBlock` (returning the accumulated
set unchanged), the fuel bound `toBlock + 1 - current` always suffices (any
larger fuel computes the same result, i.e. the loop never exhausts it), and a
range on which every query raises the capacity error is traversed completely
with no infinite loop, accumulating nothing. -/
theorem get_all_holders_scan_terminates :
    (∀ (query : ℕ → ℕ → Except String (List TransferEvent)) (toBlock current : ℕ)
        (acc : List String), current ≤ toBlock →
      current < (scanStep query toBlock current acc).1) ∧
    (∀ (query : ℕ → ℕ → Except String (List TransferEvent)) (toBlock current : ℕ)
        (acc : List String), toBlock < current →
      collectAddresses query toBlock current acc = acc) ∧
    (∀ (query : ℕ → ℕ → Except String (List TransferEvent)) (toBlock fuel current : ℕ)
        (acc : List String), toBlock + 1 - current ≤ fuel →
      collectAddressesAux query toBlock fuel current acc =
        collectAddresses query toBlock current acc) ∧
    (∀ (toBlock current : ℕ) (acc : List String),
      collectAddresses (fun _ _ => Except.error "block range too large")
        toBlock current acc = acc) := by
  refine ⟨scanStep_cursor_lt, fun query toBlock current acc h => ?_,
    fun query toBlock fuel current acc h => ?_, fun toBlock current acc => ?_⟩
  · unfold collectAddresses
    rw [show toBlock + 1 - current = 0 by omega]
    rfl
  · exact collectAddressesAux_congr query toBlock fuel _ current acc h le_rfl
  · exact collectAddressesAux_capacity_const toBlock _ current acc

theorem get_all_holders_scan_terminates_witness :
    (5 : ℕ) ≤ 10 ∧
    5 < (scanStep (fun _ _ => Except.ok []) 10 5 []).1 ∧
    (10 : ℕ) < 11 ∧
    collectAddresses (fun _ _ => Except.ok []) 10 11 ["0xa"] = ["0xa"] ∧
    (10 : ℕ) + 1 - 5 ≤ 7 ∧
    collectAddressesAux (fun _ _ => Except.ok []) 10 7 5 [] =
      collectAddresses (fun _ _ => Except.ok []) 10 5 [] ∧
    collectAddresses (fun _ _ => Except.error "block range too large") 300 0 ["0xb"] =
      ["0xb"] :=
  ⟨by decide,
   get_all_holders_scan_terminates.1 (fun _ _ => Except.ok []) 10 5 [] (by decide),
   by decide,
   get_all_holders_scan_terminates.2.1 (fun _ _ => Except.ok []) 10 11 ["0xa"] (by decide),
   by decide,
   get_all_holders_scan_terminates.2.2.1 (fun _ _ => Except.ok []) 10 7 5 [] (by decide),
   get_all_holders_scan_terminates.2.2.2 300 0 ["0xb"]⟩

/-- C7. The holder mapping returned by `get_all_holders` never contains the
zero address as a key, even when the zero address occurs as the `from` or `to`
field of a transfer record, and every stored balance is strictly positive. -/
theorem get_all_holders_no_zero_address
    (query : ℕ → ℕ → Except String (List TransferEvent))
    (getBalance : String → Except String ℕ) (from_block to_block : ℕ) :
    ∀ p ∈ get_all_holders query getBalance from_block to_block,
      p.1 ≠ zeroAddr ∧ 0 < p.2 := by
  intro p hp
  have h0 : zeroAddr ∉ collectAddresses query to_block from_block [] :=
    zeroAddr_not_mem_collectAux query to_block _ from_block [] (by simp)
  have hmem := mem_balanceStep_foldl getBalance
    (collectAddresses query to_block from_block []) [] p hp
  rcases hmem with hfalse | ⟨hin, hposi⟩
  · simp at hfalse
  · exact ⟨fun hzero => h0 (hzero ▸ hin), hposi⟩

theorem get_all_holders_no_zero_address_witness :
    ("0xabc", 5) ∈ get_all_holders
        (fun _ _ => Except.ok [⟨zeroAddr, "0xabc", 7⟩]) (fun _ => Except.ok 5) 0 0 ∧
    "0xabc" ≠ zeroAddr ∧ 0 < 5 := by
  have hmem : ("0xabc", 5) ∈ get_all_holders
      (fun _ _ => Except.ok [⟨zeroAddr, "0xabc", 7⟩]) (fun _ => Except.ok 5) 0 0 := by
    decide
  have h := get_all_holders_no_zero_address
    (fun _ _ => Except.ok [⟨zeroAddr, "0xabc", 7⟩]) (fun _ => Except.ok 5) 0 0
    ("0xabc", 5) hmem
  exact ⟨hmem, h.1, h.2⟩

/-! ### Concentration score lemmas -/

theorem calculate_score_eq_clamp {K : Type} [LinearOrderedField K] (p : K) :
    calculate_score p =
      min 30 (max 0 (max (30 - (p - 20) * 0.75) (15 - (p - 40) * 0.375))) := by
  unfold calculate_score
  rw [show (0.75 : K) = 3/4 by norm_num, show (0.375 : K) = 3/8 by norm_num]
  split_ifs with h1 h2 h3
  · have hBA : (15 - (p - 40) * (3/8) : K) ≤ 30 - (p - 20) * (3/4) := by linarith
    have h0A : (0 : K) ≤ 30 - (p - 20) * (3/4) := by linarith
    have h30 : (30 : K) ≤ 30 - (p - 20) * (3/4) := by linarith
    rw [max_eq_left hBA, max_eq_right h0A, min_eq_left h30]
  · have hBA : (15 - (p - 40) * (3/8) : K) ≤ 30 - (p - 20) * (3/4) := by linarith
    have h0A : (0 : K) ≤ 30 - (p - 20) * (3/4) := by linarith
    have hA30 : (30 - (p - 20) * (3/4) : K) ≤ 30 := by linarith
    rw [max_eq_left hBA, max_eq_right h0A, min_eq_right hA30]
  · have hAB : (30 - (p - 20) * (3/4) : K) ≤ 15 - (p - 40) * (3/8) := by linarith
    have hB0 : (15 - (p - 40) * (3/8) : K) ≤ 0 := by linarith
    rw [max_eq_right hAB, max_eq_left hB0, min_eq_right (show (0:K) ≤ 30 by norm_num)]
  · have hAB : (30 - (p - 20) * (3/4) : K) ≤ 15 - (p - 40) * (3/8) := by linarith
    have h0B : (0 : K) ≤ 15 - (p - 40) * (3/8) := by linarith
    have hB30 : (15 - (p - 40) * (3/8) : K) ≤ 30 := by linarith
    rw [max_eq_right hAB, max_eq_right h0B, min_eq_right hB30]

theorem calculate_score_antitone : Antitone (fun p : ℚ => calculate_score p) := by
  intro a b hab
  dsimp only
  rw [calculate_score_eq_clamp, calculate_score_eq_clamp]
  have h75 : (0.75 : ℚ) = 3/4 := by norm_num
  have h375 : (0.375 : ℚ) = 3/8 := by norm_num
  rw [h75, h375]
  exact min_le_min le_rfl
    (max_le_max le_rfl (max_le_max (by linarith) (by linarith)))

theorem calculate_score_bounds (p : ℚ) :
    0 ≤ calculate_score p ∧ calculate_score p ≤ 30 := by
  rw [calculate_score_eq_clamp]
  exact ⟨le_min (by norm_num) (le_max_left 0 _), min_le_left _ _⟩

theorem calculate_score_continuous : Continuous (fun p : ℝ => calculate_score p) := by
  have hfun : (fun p : ℝ => calculate_score p) =
      fun p : ℝ => min 30 (max 0 (max (30 - (p - 20) * 0.75) (15 - (p - 40) * 0.375))) :=
    funext fun p => calculate_score_eq_clamp p
  rw [hfun]
  apply Continuous.min continuous_const
  apply Continuous.max continuous_const
  apply Continuous.max
  · exact continuous_const.sub ((continuous_id.sub continuous_const).mul continuous_const)
  · exact continuous_const.sub ((continuous_id.sub continuous_const).mul continuous_const)

/-- C1. The concentration score equals the piecewise-linear table: 30 for
p ≤ 20; 30 − (p − 20)·0.75 for 20 < p ≤ 40; 15 − (p − 40)·0.375 for
40 < p < 80; 0 for p ≥ 80; it is exactly 30 at p = 20 and exactly 15 at
p = 40; it is non-increasing and continuous on the whole domain and always
lies in the interval from 0 to 30. -/
theorem concentration_score_table :
    (∀ p : ℚ, p ≤ 20 → calculate_score p = 30) ∧
    (∀ p : ℚ, 20 < p → p ≤ 40 → calculate_score p = 30 - (p - 20) * 0.75) ∧
    (∀ p : ℚ, 40 < p → p < 80 → calculate_score p = 15 - (p - 40) * 0.375) ∧
    (∀ p : ℚ, 80 ≤ p → calculate_score p = 0) ∧
    calculate_score (20 : ℚ) = 30 ∧
    calculate_score (40 : ℚ) = 15 ∧
    Antitone (fun p : ℚ => calculate_score p) ∧
    Continuous (fun p : ℝ => calculate_score p) ∧
    (∀ p : ℚ, 0 ≤ calculate_score p ∧ calculate_score p ≤ 30) := by
  refine ⟨fun p hp => ?_, fun p hp1 hp2 => ?_, fun p hp1 hp2 => ?_, fun p hp => ?_,
    ?_, ?_, calculate_score_antitone, calculate_score_continuous, calculate_score_bounds⟩
  · unfold calculate_score
    rw [if_pos hp]
  · unfold calculate_score
    rw [if_neg (not_le.mpr hp1), if_pos hp2]
  · unfold calculate_score
    rw [if_neg (by linarith), if_neg (by linarith), if_neg (not_le.mpr hp2)]
  · unfold calculate_score
    rw [if_neg (by linarith), if_neg (by linarith), if_pos hp]
  · norm_num [calculate_score]
  · norm_num [calculate_score]

theorem concentration_score_table_witness :
    calculate_score (10 : ℚ) = 30 ∧
    calculate_score (30 : ℚ) = 22.5 ∧
    calculate_score (60 : ℚ) = 7.5 ∧
    calculate_score (90 : ℚ) = 0 ∧
    0 ≤ calculate_score (50 : ℚ) ∧ calculate_score (50 : ℚ) ≤ 30 :=
  ⟨concentration_score_table.1 10 (by norm_num),
   by rw [concentration_score_table.2.1 30 (by norm_num) (by norm_num)]; norm_num,
   by rw [concentration_score_table.2.2.1 60 (by norm_num) (by norm_num)]; norm_num,
   concentration_score_table.2.2.2.1 90 (by norm_num),
   (concentration_score_table.2.2.2.2.2.2.2.2 50).1,
   (concentration_score_table.2.2.2.2.2.2.2.2 50).2⟩

/-- C5. The risk tier is `low_risk` when p ≤ 20, `medium_risk` when
20 < p ≤ 40, `high_risk` when 40 < p ≤ 60, and `extreme_risk` when p > 60;
the tier boundaries are closed on the lower tier, so p = 20 maps to low,
p = 20.0001 to medium, p = 60 to high, and p = 60.0001 to extreme. -/
theorem risk_level_tiers :
    (∀ p : ℚ, p ≤ 20 → determine_risk_level p = "low_risk") ∧
    (∀ p : ℚ, 20 < p → p ≤ 40 → determine_risk_level p = "medium_risk") ∧
    (∀ p : ℚ, 40 < p → p ≤ 60 → determine_risk_level p = "high_risk") ∧
    (∀ p : ℚ, 60 < p → determine_risk_level p = "extreme_risk") ∧
    determine_risk_level 20 = "low_risk" ∧
    determine_risk_level 20.0001 = "medium_risk" ∧
    determine_risk_level 60 = "high_risk" ∧
    determine_risk_level 60.0001 = "extreme_risk" := by
  refine ⟨fun p hp => ?_, fun p hp1 hp2 => ?_, fun p hp1 hp2 => ?_, fun p hp => ?_,
    ?_, ?_, ?_, ?_⟩
  · unfold determine_risk_level
    rw [if_pos hp]
  · unfold determine_risk_level
    rw [if_neg (not_le.mpr hp1), if_pos hp2]
  · unfold determine_risk_level
    rw [if_neg (by linarith), if_neg (not_le.mpr hp1), if_pos hp2]
  · unfold determine_risk_level
    rw [if_neg (by linarith), if_neg (by linarith), if_neg (not_le.mpr hp)]
  · norm_num [determine_risk_level]
  · norm_num [determine_risk_level]
  · norm_num [determine_risk_level]
  · norm_num [determine_risk_level]

theorem risk_level_tiers_witness :
    determine_risk_level 5 = "low_risk" ∧
    determine_risk_level 33 = "medium_risk" ∧
    determine_risk_level 55 = "high_risk" ∧
    determine_risk_level 95 = "extreme_risk" :=
  ⟨risk_level_tiers.1 5 (by norm_num),
   risk_level_tiers.2.1 33 (by norm_num) (by norm_num),
   risk_level_tiers.2.2.1 55 (by norm_num) (by norm_num),
   risk_level_tiers.2.2.2.1 95 (by norm_num)⟩

/-- C6. For every non-empty holder mapping (with the positive balances that
`get_all_holders` guarantees), `analyze_holder_concentration` computes
`top10_percentage` as the sum of the first ten balances after sorting
descending, divided by the sum of all observed balances, times 100 — exactly
the spec's formula over the observed supply — and the reported
`total_supply` is that observed balance sum, not any declared contract
supply (which the function does not even receive). -/
theorem top10_percentage_uses_observed_supply (holders : List (String × ℕ))
    (hne : holders ≠ []) (hpos : ∀ p ∈ holders, 0 < p.2) :
    (analyze_holder_concentration holders).top10_percentage =
      specTop10Percentage holders ∧
    (analyze_holder_concentration holders).total_supply =
      (holders.map Prod.snd).sum := by
  have hlen : ¬ holders.length = 0 := by
    simpa [List.length_eq_zero] using hne
  have hsum : 0 < (holders.map Prod.snd).sum := by
    rcases holders with _ | ⟨hd, tl⟩
    · exact absurd rfl hne
    · have hhd := hpos hd (List.mem_cons_self hd tl)
      simp only [List.map_cons, List.sum_cons]
      omega
  unfold analyze_holder_concentration
  rw [if_neg hlen]
  dsimp only
  rw [if_pos hsum]
  exact ⟨rfl, rfl⟩

theorem top10_percentage_uses_observed_supply_witness :
    (([("0xa", 5)] : List (String × ℕ)) ≠ []) ∧
    (analyze_holder_concentration [("0xa", 5)]).top10_percentage =
      specTop10Percentage [("0xa", 5)] ∧
    (analyze_holder_concentration [("0xa", 5)]).total_supply =
      ([(("0xa" : String), (5 : ℕ))].map Prod.snd).sum := by
  have hpos : ∀ p ∈ ([("0xa", 5)] : List (String × ℕ)), 0 < p.2 := by
    intro p hp
    rw [List.mem_singleton] at hp
    subst hp
    norm_num
  have h := top10_percentage_uses_observed_supply [("0xa", 5)] (by decide) hpos
  exact ⟨by decide, h.1, h.2⟩

/-- C8. The empty holder mapping yields exactly the terminal result with zero
holders, zero score, risk level `unknown` and the explanatory `error` field;
the empty transfer-event list yields exactly the terminal result with zero
unique EOAs, score 0, risk level `high_risk` and the explanatory `message`
field. -/
theorem empty_result_shapes :
    analyze_holder_concentration [] =
      { total_holders := 0, total_supply := 0, top10_holders := [],
        top10_percentage := 0, score := 0, risk_level := "unknown",
        error := some "No holders found" } ∧
    ∀ (isEOA : String → Bool) (time_window_hours : ℕ),
      analyze_transfer_events isEOA [] time_window_hours =
        { unique_eoa_count := 0, unique_eoa_list := [], total_addresses := 0,
          contract_addresses := 0, eoa_percentage := none, score := 0,
          risk_level := "high_risk", message := some "No transfer events found" } := by
  constructor
  · norm_num [analyze_holder_concentration, calculate_score, determine_risk_level]
  · intro isEOA time_window_hours
    rfl

theorem empty_result_shapes_witness :
    analyze_transfer_events (fun _ => true) [] 1 =
      { unique_eoa_count := 0, unique_eoa_list := [], total_addresses := 0,
        contract_addresses := 0, eoa_percentage := none, score := 0,
        risk_level := "high_risk", message := some "No transfer events found" } :=
  empty_result_shapes.2 (fun _ => true) 1

/-! ### Activity score lemmas -/

theorem floorq_eq {x : ℚ} {f : ℤ} (h1 : (f : ℚ) ≤ x) (h2 : x < (f : ℚ) + 1) :
    ⌊x⌋ = f :=
  Int.floor_eq_iff.mpr ⟨h1, h2⟩

theorem rhe_mono : Monotone rhe := by
  intro a b hab
  unfold rhe
  have hf : ⌊a⌋ ≤ ⌊b⌋ := Int.floor_le_floor hab
  rcases lt_or_eq_of_le hf with hlt | heq
  · split_ifs <;> omega
  · rw [← heq]
    have h1 : a - ⌊a⌋ ≤ b - ⌊a⌋ := by linarith
    split_ifs <;> first | omega | linarith

theorem round2_mono : Monotone round2 := by
  intro a b hab
  unfold round2
  have h : rhe (a * 100) ≤ rhe (b * 100) := rhe_mono (by linarith)
  have hc : ((rhe (a * 100) : ℤ) : ℚ) ≤ ((rhe (b * 100) : ℤ) : ℚ) := by exact_mod_cast h
  linarith

theorem round2_intCast (z : ℤ) : round2 (z : ℚ) = (z : ℚ) := by
  have hz : ((z : ℚ) * 100) = ((z * 100 : ℤ) : ℚ) := by push_cast; ring
  have hfl : ⌊(z : ℚ) * 100⌋ = z * 100 := by rw [hz, Int.floor_intCast]
  have hcond : (z : ℚ) * 100 - ((z * 100 : ℤ) : ℚ) < 1/2 := by push_cast; ring_nf; norm_num
  unfold round2 rhe
  rw [hfl, if_pos hcond]
  push_cast
  ring

theorem round2_eval {x : ℚ} {f : ℤ} (h1 : (f : ℚ) ≤ x * 100)
    (h2 : x * 100 < (f : ℚ) + 1) (h3 : x * 100 - (f : ℚ) < 1/2) :
    round2 x = (f : ℚ) / 100 := by
  have hfl : ⌊x * 100⌋ = f := floorq_eq h1 h2
  unfold round2 rhe
  rw [hfl, if_pos h3]

theorem uniq_score_eq_clamp (e h : ℕ) (hh : 0 < h) :
    (uniq_calculate_score e h).1 =
      round2 (min 40 (min (20 + ((e : ℚ) / (h : ℚ) - 50) / 250 * 20)
        ((e : ℚ) / (h : ℚ) / 50 * 20))) := by
  have hn : (0 : ℚ) ≤ (e : ℚ) / (h : ℚ) := by positivity
  unfold uniq_calculate_score
  split_ifs with h1 h2
  · dsimp only
    congr 1
    have hM : (40 : ℚ) ≤ 20 + ((e : ℚ) / (h : ℚ) - 50) / 250 * 20 := by linarith
    have hH : (40 : ℚ) ≤ (e : ℚ) / (h : ℚ) / 50 * 20 := by linarith
    rw [min_eq_left (le_min hM hH)]
  · dsimp only
    congr 1
    have hMH : (20 + ((e : ℚ) / (h : ℚ) - 50) / 250 * 20 : ℚ) ≤
        (e : ℚ) / (h : ℚ) / 50 * 20 := by linarith
    have hM40 : (20 + ((e : ℚ) / (h : ℚ) - 50) / 250 * 20 : ℚ) ≤ 40 := by linarith
    rw [min_eq_left hMH, min_eq_right hM40]
  · dsimp only
    congr 1
    have hHM : ((e : ℚ) / (h : ℚ) / 50 * 20 : ℚ) ≤
        20 + ((e : ℚ) / (h : ℚ) - 50) / 250 * 20 := by linarith
    have hH40 : ((e : ℚ) / (h : ℚ) / 50 * 20 : ℚ) ≤ 40 := by linarith
    rw [min_eq_right hHM, min_eq_right hH40]

theorem round2_forty : round2 (40 : ℚ) = 40 := by
  have h := round2_intCast 40
  norm_num at h
  exact h

theorem round2_twenty : round2 (20 : ℚ) = 20 := by
  have h := round2_intCast 20
  norm_num at h
  exact h

theorem round2_zero : round2 (0 : ℚ) = 0 := by
  have h := round2_intCast 0
  norm_num at h
  exact h

/-- C2 (amended: the code rounds the returned score to two decimal places, so
the score equals `round2` of the stated formula rather than the raw formula).
With n = e / h: for n ≥ 300 the result is score 40 and risk `low_risk`; for
50 ≤ n < 300 it is `round2 (20 + (n − 50)/250·20)` and `medium_risk`; for
n < 50 it is `round2 ((n/50)·20)` and `high_risk`.  The score is exactly 40
at n = 300, exactly 20 at n = 50, exactly 0 at n = 0, is non-decreasing in n,
and always lies in the interval from 0 to 40. -/
theorem activity_score_table :
    (∀ e h : ℕ, 0 < h →
      (300 ≤ (e : ℚ) / (h : ℚ) →
        uniq_calculate_score e h = (40, "low_risk")) ∧
      (50 ≤ (e : ℚ) / (h : ℚ) → (e : ℚ) / (h : ℚ) < 300 →
        uniq_calculate_score e h =
          (round2 (20 + ((e : ℚ) / (h : ℚ) - 50) / 250 * 20), "medium_risk")) ∧
      ((e : ℚ) / (h : ℚ) < 50 →
        uniq_calculate_score e h =
          (round2 ((e : ℚ) / (h : ℚ) / 50 * 20), "high_risk")) ∧
      0 ≤ (uniq_calculate_score e h).1 ∧ (uniq_calculate_score e h).1 ≤ 40) ∧
    (∀ e₁ h₁ e₂ h₂ : ℕ, 0 < h₁ → 0 < h₂ →
      (e₁ : ℚ) / (h₁ : ℚ) ≤ (e₂ : ℚ) / (h₂ : ℚ) →
      (uniq_calculate_score e₁ h₁).1 ≤ (uniq_calculate_score e₂ h₂).1) ∧
    (uniq_calculate_score 300 1).1 = 40 ∧
    (uniq_calculate_score 50 1).1 = 20 ∧
    (uniq_calculate_score 0 1).1 = 0 := by
  have hbranches : ∀ e h : ℕ, 0 < h →
      (300 ≤ (e : ℚ) / (h : ℚ) →
        uniq_calculate_score e h = (40, "low_risk")) ∧
      (50 ≤ (e : ℚ) / (h : ℚ) → (e : ℚ) / (h : ℚ) < 300 →
        uniq_calculate_score e h =
          (round2 (20 + ((e : ℚ) / (h : ℚ) - 50) / 250 * 20), "medium_risk")) ∧
      ((e : ℚ) / (h : ℚ) < 50 →
        uniq_calculate_score e h =
          (round2 ((e : ℚ) / (h : ℚ) / 50 * 20), "high_risk")) := by
    intro e h hh
    refine ⟨fun h1 => ?_, fun h1 h2 => ?_, fun h1 => ?_⟩
    · unfold uniq_calculate_score
      rw [if_pos h1, round2_forty]
    · unfold uniq_calculate_score
      rw [if_neg (not_le.mpr h2), if_pos h1]
    · unfold uniq_calculate_score
      rw [if_neg (by linarith), if_neg (not_le.mpr h1)]
  have hbounds : ∀ e h : ℕ, 0 < h →
      0 ≤ (uniq_calculate_score e h).1 ∧ (uniq_calculate_score e h).1 ≤ 40 := by
    intro e h hh
    rw [uniq_score_eq_clamp e h hh]
    have hn : (0 : ℚ) ≤ (e : ℚ) / (h : ℚ) := by positivity
    constructor
    · rw [← round2_zero]
      exact round2_mono (le_min (by norm_num) (le_min (by linarith) (by linarith)))
    · exact le_trans (round2_mono (min_le_left _ _)) (le_of_eq round2_forty)
  refine ⟨fun e h hh => ⟨(hbranches e h hh).1, (hbranches e h hh).2.1,
      (hbranches e h hh).2.2, hbounds e h hh⟩,
    fun e₁ h₁ e₂ h₂ hh₁ hh₂ hn => ?_, ?_, ?_, ?_⟩
  · rw [uniq_score_eq_clamp e₁ h₁ hh₁, uniq_score_eq_clamp e₂ h₂ hh₂]
    exact round2_mono (min_le_min le_rfl (min_le_min (by linarith) (by linarith)))
  · have h := (hbranches 300 1 (by norm_num)).1 (by norm_num)
    rw [h]
  · have h := (hbranches 50 1 (by norm_num)).2.1 (by norm_num) (by norm_num)
    rw [h]
    dsimp only
    rw [show (20 + (((50 : ℕ) : ℚ) / ((1 : ℕ) : ℚ) - 50) / 250 * 20 : ℚ) = 20 by norm_num]
    exact round2_twenty
  · have h := (hbranches 0 1 (by norm_num)).2.2 (by norm_num)
    rw [h]
    dsimp only
    rw [show (((0 : ℕ) : ℚ) / ((1 : ℕ) : ℚ) / 50 * 20 : ℚ) = 0 by norm_num]
    exact round2_zero

theorem activity_score_table_witness :
    (0 : ℕ) < 1 ∧
    (300 : ℚ) ≤ ((400 : ℕ) : ℚ) / ((1 : ℕ) : ℚ) ∧
    uniq_calculate_score 400 1 = (40, "low_risk") ∧
    uniq_calculate_score 100 1 =
      (round2 (20 + (((100 : ℕ) : ℚ) / ((1 : ℕ) : ℚ) - 50) / 250 * 20), "medium_risk") ∧
    uniq_calculate_score 25 1 =
      (round2 (((25 : ℕ) : ℚ) / ((1 : ℕ) : ℚ) / 50 * 20), "high_risk") ∧
    (uniq_calculate_score 7 2).1 ≤ (uniq_calculate_score 9 2).1 :=
  ⟨by norm_num, by norm_num,
   (activity_score_table.1 400 1 (by norm_num)).1 (by norm_num),
   (activity_score_table.1 100 1 (by norm_num)).2.1 (by norm_num) (by norm_num),
   (activity_score_table.1 25 1 (by norm_num)).2.2.1 (by norm_num),
   activity_score_table.2.1 7 2 9 2 (by norm_num) (by norm_num) (by norm_num)⟩

theorem uniq_score_one_in_three_hours : (uniq_calculate_score 1 3).1 = 13/100 := by
  unfold uniq_calculate_score
  rw [if_neg (by norm_num), if_neg (by norm_num)]
  dsimp only
  rw [show (((1 : ℕ) : ℚ) / ((3 : ℕ) : ℚ) / 50 * 20 : ℚ) = 2/15 by norm_num]
  rw [round2_eval (f := 13) (by norm_num) (by norm_num) (by norm_num)]
  norm_num

/-- C2 counterexample. At one unique EOA in a three-hour window (n = 1/3) the
claim's exact formula gives (n/50)·20 = 2/15 = 0.1333…, but the code returns
`round(2/15, 2) = 0.13`, so the claimed exact equality fails. -/
theorem activity_score_rounding_counterexample :
    (uniq_calculate_score 1 3).1 ≠ ((1 : ℚ) / 3) / 50 * 20 := by
  rw [uniq_score_one_in_three_hours]
  norm_num

/-- C9. The reader accessors substitute the documented defaults on any failing
external call and never propagate it: `get_name` yields "Unknown",
`get_symbol` yields "UNKNOWN", `get_decimals` yields 18, `get_total_supply`
yields 0, and `get_balance` yields 0 whenever the `balanceOf` call fails;
the functions are pure, so repeated calls on the same failing input yield
the same default each time. -/
theorem reader_defaults :
    (∀ e : String, get_name (Except.error e) = "Unknown") ∧
    (∀ e : String, get_symbol (Except.error e) = "UNKNOWN") ∧
    (∀ e : String, get_decimals (Except.error e) = 18) ∧
    (∀ e : String, get_total_supply (Except.error e) = 0) ∧
    (∀ (toChecksum : String → Except String String)
        (callBalanceOf : String → Except String ℕ)
        (address checksum_address e : String),
      toChecksum address = Except.ok checksum_address →
      callBalanceOf checksum_address = Except.error e →
      get_balance toChecksum callBalanceOf address = Except.ok 0) := by
  refine ⟨fun _ => rfl, fun _ => rfl, fun _ => rfl, fun _ => rfl,
    fun tc cb a c e h1 h2 => ?_⟩
  unfold get_balance
  rw [h1]
  dsimp only
  rw [h2]

theorem reader_defaults_witness :
    get_name (Except.error "boom") = "Unknown" ∧
    get_symbol (Except.error "boom") = "UNKNOWN" ∧
    get_decimals (Except.error "boom") = 18 ∧
    get_total_supply (Except.error "boom") = 0 ∧
    get_balance (fun a => Except.ok a) (fun _ => Except.error "boom") "0xa" =
      Except.ok 0 :=
  ⟨reader_defaults.1 "boom", reader_defaults.2.1 "boom",
   reader_defaults.2.2.1 "boom", reader_defaults.2.2.2.1 "boom",
   reader_defaults.2.2.2.2 (fun a => Except.ok a) (fun _ => Except.error "boom")
     "0xa" "0xa" "boom" rfl rfl⟩

/-! ### Classification partition lemmas -/

theorem filter_insert_of_pos {p : String → Bool} {a : String} (l : List String)
    (ha : p a = true) : (l.insert a).filter p = (l.filter p).insert a := by
  by_cases hmem : a ∈ l
  · rw [List.insert_of_mem hmem, List.insert_of_mem (List.mem_filter.mpr ⟨hmem, ha⟩)]
  · have hnf : a ∉ l.filter p := fun hf => hmem (List.mem_filter.mp hf).1
    rw [List.insert_of_not_mem hmem, List.insert_of_not_mem hnf,
      List.filter_cons_of_pos ha]

theorem filter_insert_of_neg {p : String → Bool} {a : String} (l : List String)
    (ha : p a = false) : (l.insert a).filter p = l.filter p := by
  by_cases hmem : a ∈ l
  · rw [List.insert_of_mem hmem]
  · rw [List.insert_of_not_mem hmem, List.filter_cons_of_neg (by simp [ha])]

/-- The participant-address set accumulated by the classification loop. -/
def participantsFrom (events : List TransferEvent) (A : List String) : List String :=
  events.foldl (fun A ev => (A.insert ev.from_).insert ev.to_) A

theorem classifyStep_filter (isEOA : String → Bool) (A : List String)
    (ev : TransferEvent) :
    classifyStep isEOA (A, A.filter (fun a => isEOA a), A.filter (fun a => !isEOA a)) ev =
      ((A.insert ev.from_).insert ev.to_,
       ((A.insert ev.from_).insert ev.to_).filter (fun a => isEOA a),
       ((A.insert ev.from_).insert ev.to_).filter (fun a => !isEOA a)) := by
  unfold classifyStep
  dsimp only
  cases hf : isEOA ev.from_ <;> cases ht : isEOA ev.to_ <;>
    simp only [hf, ht, if_true, if_false, Bool.false_eq_true, ite_true, ite_false] <;>
    refine congrArg (Prod.mk _) (congrArg₂ Prod.mk ?_ ?_)
  · rw [filter_insert_of_neg _ (by simp [ht]), filter_insert_of_neg _ (by simp [hf])]
  · rw [filter_insert_of_pos _ (by simp [ht]), filter_insert_of_pos _ (by simp [hf])]
  · rw [filter_insert_of_pos _ ht, filter_insert_of_neg _ hf]
  · rw [filter_insert_of_neg _ (by simp [ht]), filter_insert_of_pos _ (by simp [hf])]
  · rw [filter_insert_of_neg _ ht, filter_insert_of_pos _ hf]
  · rw [filter_insert_of_pos _ (by simp [ht]), filter_insert_of_neg _ (by simp [hf])]
  · rw [filter_insert_of_pos _ ht, filter_insert_of_pos _ hf]
  · rw [filter_insert_of_neg _ (by simp [ht]), filter_insert_of_neg _ (by simp [hf])]

theorem classifyFold_filter (isEOA : String → Bool) (events : List TransferEvent) :
    ∀ A : List String,
      events.foldl (classifyStep isEOA)
        (A, A.filter (fun a => isEOA a), A.filter (fun a => !isEOA a)) =
      (participantsFrom events A,
       (participantsFrom events A).filter (fun a => isEOA a),
       (participantsFrom events A).filter (fun a => !isEOA a)) := by
  induction events with
  | nil => intro A; rfl
  | cons ev evs ih =>
    intro A
    rw [List.foldl_cons, classifyStep_filter, ih]
    rfl

theorem classifyFold_eq (isEOA : String → Bool) (events : List TransferEvent) :
    classifyFold isEOA events =
      (participantsFrom events [],
       (participantsFrom events []).filter (fun a => isEOA a),
       (participantsFrom events []).filter (fun a => !isEOA a)) := by
  have h := classifyFold_filter isEOA events []
  simpa [classifyFold] using h

theorem length_filter_add_length_filter_neg (p : String → Bool) (l : List String) :
    (l.filter p).length + (l.filter (fun a => !p a)).length = l.length := by
  induction l with
  | nil => rfl
  | cons a t ih =>
    cases ha : p a <;> simp [List.filter_cons, ha] <;> omega

theorem subset_participantsFrom (events : List TransferEvent) :
    ∀ A : List String, A ⊆ participantsFrom events A := by
  induction events with
  | nil => intro A x hx; exact hx
  | cons ev evs ih =>
    intro A x hx
    exact ih _ (List.mem_insert_of_mem (List.mem_insert_of_mem hx))

/-- C10. For every non-empty event list and every classifier that is a
function of the address, the EOA set and the contract set accumulated by
`analyze_transfer_events` are disjoint and their union is exactly the set of
participant addresses; hence `unique_eoa_count + contract_addresses =
total_addresses`, and the divisor of `eoa_percentage` (the participant-address
count) is non-zero. -/
theorem eoa_contract_partition (isEOA : String → Bool) (events : List TransferEvent)
    (time_window_hours : ℕ) (hne : events ≠ []) :
    (∀ a, a ∈ (classifyFold isEOA events).2.1 → a ∉ (classifyFold isEOA events).2.2) ∧
    (∀ a, a ∈ (classifyFold isEOA events).1 ↔
      a ∈ (classifyFold isEOA events).2.1 ∨ a ∈ (classifyFold isEOA events).2.2) ∧
    (analyze_transfer_events isEOA events time_window_hours).unique_eoa_count +
        (analyze_transfer_events isEOA events time_window_hours).contract_addresses =
      (analyze_transfer_events isEOA events time_window_hours).total_addresses ∧
    0 < (analyze_transfer_events isEOA events time_window_hours).total_addresses := by
  have hfold := classifyFold_eq isEOA events
  have hempty : events.isEmpty = false := by
    cases events with
    | nil => exact absurd rfl hne
    | cons ev evs => rfl
  have hanalyze :
      analyze_transfer_events isEOA events time_window_hours =
        { unique_eoa_count := (classifyFold isEOA events).2.1.length,
          unique_eoa_list := (classifyFold isEOA events).2.1,
          total_addresses := (classifyFold isEOA events).1.length,
          contract_addresses := (classifyFold isEOA events).2.2.length,
          eoa_percentage := some (if (classifyFold isEOA events).1.isEmpty then 0
            else ((classifyFold isEOA events).2.1.length : ℚ) /
              ((classifyFold isEOA events).1.length : ℚ) * 100),
          score := (uniq_calculate_score (classifyFold isEOA events).2.1.length
            time_window_hours).1,
          risk_level := (uniq_calculate_score (classifyFold isEOA events).2.1.length
            time_window_hours).2,
          message := none } := by
    unfold analyze_transfer_events
    rw [hempty]
    rfl
  refine ⟨?_, ?_, ?_, ?_⟩
  · intro a ha hb
    rw [hfold] at ha hb
    dsimp only at ha hb
    have h1 := (List.mem_filter.mp ha).2
    have h2 := (List.mem_filter.mp hb).2
    rw [Bool.not_eq_true'] at h2
    rw [h2] at h1
    exact Bool.false_ne_true h1
  · intro a
    rw [hfold]
    dsimp only
    constructor
    · intro ha
      cases he : isEOA a with
      | true => exact Or.inl (List.mem_filter.mpr ⟨ha, he⟩)
      | false => exact Or.inr (List.mem_filter.mpr ⟨ha, by simp [he]⟩)
    · intro h
      rcases h with h | h
      · exact (List.mem_filter.mp h).1
      · exact (List.mem_filter.mp h).1
  · rw [hanalyze]
    dsimp only
    rw [hfold]
    dsimp only
    exact length_filter_add_length_filter_neg (fun a => isEOA a) _
  · rw [hanalyze]
    dsimp only
    cases events with
    | nil => exact absurd rfl hne
    | cons ev evs =>
      have hmem : ev.from_ ∈ (classifyFold isEOA (ev :: evs)).1 := by
        rw [classifyFold_eq]
        dsimp only
        unfold participantsFrom
        rw [List.foldl_cons]
        exact subset_participantsFrom evs _
          (List.mem_insert_of_mem (List.mem_insert_self _ _))
      exact List.length_pos.mpr (List.ne_nil_of_mem hmem)

theorem eoa_contract_partition_witness :
    (([⟨"0xa", "0xb", 1⟩] : List TransferEvent) ≠ []) ∧
    (analyze_transfer_events (fun a => decide (a = "0xa")) [⟨"0xa", "0xb", 1⟩] 1).unique_eoa_count +
        (analyze_transfer_events (fun a => decide (a = "0xa")) [⟨"0xa", "0xb", 1⟩] 1).contract_addresses =
      (analyze_transfer_events (fun a => decide (a = "0xa")) [⟨"0xa", "0xb", 1⟩] 1).total_addresses ∧
    0 < (analyze_transfer_events (fun a => decide (a = "0xa")) [⟨"0xa", "0xb", 1⟩] 1).total_addresses := by
  have h := eoa_contract_partition (fun a => decide (a = "0xa")) [⟨"0xa", "0xb", 1⟩] 1
    (by decide)
  exact ⟨by decide, h.2.2.1, h.2.2.2⟩
